import Mathlib

/-!
Shallow embedding of src/image_generator.py.

Strings are modelled as Lean `String` (a list of characters); the regex
character classes of Python (`\w`, `\s`) are modelled at the ASCII level:
a word character is a digit, an ASCII letter or an underscore, a space
character is one of the six ASCII whitespace characters matched by `\s`.
Lower-casing is modelled as the ASCII case map, matching CPython on the
ASCII range. The remote services, the HTTP download, the image decode and
the filesystem operations of the Image Fetcher are modelled as oracle
parameters returning `Except`, and the fetcher is given a step trace so
that call counts and console warnings can be stated.
-/

namespace ImageGen

/-- Decimal digit, modelling the regex class [0-9]. -/
def isDigitC (c : Char) : Bool := decide (48 ≤ c.toNat ∧ c.toNat ≤ 57)

/-- ASCII upper-case letter. -/
def isUpperC (c : Char) : Bool := decide (65 ≤ c.toNat ∧ c.toNat ≤ 90)

/-- ASCII lower-case letter. -/
def isLowerC (c : Char) : Bool := decide (97 ≤ c.toNat ∧ c.toNat ≤ 122)

/-- Word character, modelling the regex class \w at the ASCII level:
digit, letter or underscore (underscore has code 95). -/
def isWordChar (c : Char) : Bool :=
  isDigitC c || isUpperC c || isLowerC c || decide (c.toNat = 95)

/-- Whitespace character, modelling the regex class \s at the ASCII level:
space, tab, newline, carriage return, vertical tab, form feed. -/
def isSpaceChar (c : Char) : Bool :=
  decide (c.toNat = 32 ∨ c.toNat = 9 ∨ c.toNat = 10 ∨
          c.toNat = 13 ∨ c.toNat = 11 ∨ c.toNat = 12)

/-- Character kept by the first substitution of sanitize_filename,
which deletes every character matching [^\w\s-]. -/
def keepChar (c : Char) : Bool := isWordChar c || isSpaceChar c || c == '-'

/-- First step of sanitize_filename, line 87:
re.sub deleting every character that is not a word character, a
whitespace character or a hyphen. -/
def stripNonWord (l : List Char) : List Char := l.filter keepChar

/-- Character matched by the regex class [-\s]: hyphen or whitespace. -/
def isSep (c : Char) : Bool := isSpaceChar c || c == '-'

/-- Worker for the second substitution: replaces every maximal run of
[-\s] characters by a single hyphen. The flag records whether the
previous character belonged to such a run. -/
def collapseAux : Bool → List Char → List Char
  | _, [] => []
  | inRun, c :: rest =>
    if isSep c then
      if inRun then collapseAux true rest
      else '-' :: collapseAux true rest
    else c :: collapseAux false rest

/-- Second step of sanitize_filename, line 88:
re.sub replacing every run of hyphens and whitespace by one hyphen. -/
def collapseRuns (l : List Char) : List Char := collapseAux false l

/-- ASCII lower-casing of one character, modelling str.lower. -/
def pyLower (c : Char) : Char :=
  if isUpperC c then Char.ofNat (c.toNat + 32) else c

/-- Removal of trailing hyphens, structural half of str.strip("-"). -/
def dropTrail : List Char → List Char
  | [] => []
  | c :: rest =>
    let r := dropTrail rest
    if r.isEmpty && c == '-' then [] else c :: r

/-- Third step of sanitize_filename, line 89: str.strip("-") removes the
leading and the trailing run of hyphens. -/
def stripEdgeHyphens (l : List Char) : List Char :=
  dropTrail (l.dropWhile (fun c => c == '-'))

/-- Body of FlexibleImageGenerator.sanitize_filename, lines 84-90, on
character lists: delete non-word non-space non-hyphen characters,
collapse [-\s] runs to single hyphens, lower-case, strip edge hyphens. -/
def sanitizeL (l : List Char) : List Char :=
  stripEdgeHyphens ((collapseRuns (stripNonWord l)).map pyLower)

/-- FlexibleImageGenerator.sanitize_filename, lines 84-90. -/
def sanitize_filename (s : String) : String := ⟨sanitizeL s.data⟩

/-- Python truthiness of an optional string: None and the empty string
are falsy, every other string is truthy. -/
def isTruthy : Option String → Bool
  | none => false
  | some s => !(s == "")

/-- Filename resolution in run_generation, lines 218-220: when the
filename argument is falsy it is replaced by the sanitized first 30
characters of the description. -/
def run_generation_filename (filename : Option String) (description : String) :
    Option String :=
  if isTruthy filename then filename
  else some (sanitize_filename ⟨description.data.take 30⟩)

/-- Filename resolution in FlexibleImageGenerator.__init__, lines 78-82:
a truthy filename is sanitized, otherwise the timestamp string
datetime.now().strftime("%Y%m%d_%H%M%S") is used. The timestamp string
is passed in as a parameter ts. -/
def init_filename (ts : String) (filename : Option String) : String :=
  match filename with
  | some f => if !(f == "") then sanitize_filename f else ts
  | none => ts

/-- Combined filename pipeline of one invocation: run_generation resolves
the optional filename against the description, then the constructor of
FlexibleImageGenerator applies its own resolution. ts is the timestamp
string the constructor would format from the current time. -/
def pipeline_filename (ts : String) (filename : Option String)
    (description : String) : String :=
  init_filename ts (run_generation_filename filename description)

/-- Decimal digit character for a value below ten (code 48 is the
character zero). -/
def digitChar (n : Nat) : Char := Char.ofNat (48 + n)

/-- Two-digit zero-padded decimal rendering, modelling the strftime
fields %m %d %H %M %S for values below one hundred. -/
def pad2 (n : Nat) : List Char := [digitChar (n / 10), digitChar (n % 10)]

/-- Four-digit decimal rendering, modelling the strftime field %Y for
years between 1000 and 9999. -/
def pad4 (n : Nat) : List Char :=
  [digitChar (n / 1000), digitChar (n / 100 % 10),
   digitChar (n / 10 % 10), digitChar (n % 10)]

/-- The timestamp datetime.now().strftime("%Y%m%d_%H%M%S") of line 82,
applied to a clock reading given as year, month, day, hour, minute,
second. -/
def strftimeTimestamp (y mo d h mi s : Nat) : String :=
  ⟨pad4 y ++ pad2 mo ++ pad2 d ++ ['_'] ++ pad2 h ++ pad2 mi ++ pad2 s⟩

/-- Decidable check of the pattern YYYYMMDD_HHMMSS: exactly 8 digits, an
underscore, then exactly 6 digits. -/
def matchesTimestamp (l : List Char) : Bool :=
  l.length == 15 && (l.take 8).all isDigitC &&
  (l.drop 8).take 1 == ['_'] && (l.drop 9).all isDigitC

/-- The ImageSize enum, lines 34-37. -/
inductive ImageSize where
  | square
  | portrait
  | landscape
deriving DecidableEq

/-- The string value of each ImageSize member. -/
def ImageSize.value : ImageSize → String
  | .square => "square"
  | .portrait => "portrait"
  | .landscape => "landscape"

/-- The size_map dictionary of ImageSize.get_dimensions, lines 41-45. -/
def size_map : List (String × String) :=
  [("square", "1024x1024"), ("portrait", "1024x1792"),
   ("landscape", "1792x1024")]

/-- ImageSize.get_dimensions, lines 39-46: dictionary lookup of the
dimension string keyed by the enum value; a missing key would be a
lookup error, modelled by Option. -/
def get_dimensions (s : ImageSize) : Option String :=
  size_map.lookup s.value

/-- The ImageStyle enum, lines 26-31. -/
inductive ImageStyle where
  | photorealistic
  | cartoon
  | artistic
  | minimalist
  | pixel_art
deriving DecidableEq

/-- The style_instructions dictionary of generate_image_prompt,
lines 99-105, keyed directly by the enum members. -/
def style_instructions : List (ImageStyle × String) :=
  [(.photorealistic,
    "Create a photorealistic image with high detail and natural lighting"),
   (.cartoon,
    "Create a cartoon-style illustration with bold colors and clean lines"),
   (.artistic,
    "Create an artistic interpretation with creative expression and artistic flair"),
   (.minimalist,
    "Create a minimalist design with clean, simple elements and plenty of negative space"),
   (.pixel_art,
    "Create a pixel art style image with distinct pixels and limited color palette")]

/-- Dictionary lookup style_instructions[style] of line 110; a missing
key would raise, modelled by Option. -/
def lookupStyle (s : ImageStyle) : Option String :=
  style_instructions.lookup s

/-- Text of the prompt template before the style directive, line 107-110
of the f-string: the header, the embedded description and the label of
the style instructions. -/
def promptBefore (description : String) : String :=
  "Create an image generation prompt based on the following description:\nDescription: "
  ++ description ++ "\n\nStyle instructions: "

/-- Optional fifth requirement line of the template, line 117: present
exactly when additional_instructions is truthy. -/
def promptLine5 (addl : Option String) : String :=
  match addl with
  | none => ""
  | some a => if a == "" then "" else "5. " ++ a

/-- Text of the prompt template after the style directive,
lines 112-119 of the f-string. -/
def promptAfter (addl : Option String) : String :=
  "\n\nAdditional requirements:\n1. Focus on visual elements and composition\n2. Be specific about colors, lighting, and mood\n3. Include details about perspective and framing\n4. Maintain consistency with the chosen style\n"
  ++ promptLine5 addl
  ++ "\n\nWrite a clear, detailed prompt for DALL-E to create this image."

/-- The prompt text assembled by generate_image_prompt, lines 107-119,
before it is sent to the text-generation service: the f-string is the
concatenation of the part before the directive, the directive looked up
in the dictionary, and the part after it. -/
def build_prompt (description : String) (s : ImageStyle)
    (addl : Option String) : Option String :=
  (lookupStyle s).map
    (fun instr => promptBefore description ++ instr ++ promptAfter addl)

/-- The specific console message printed when the Anthropic key is
missing, lines 307-309 (without console markup). -/
def anthropic_err : String :=
  "Error: Anthropic API key is required. Set ANTHROPIC_API_KEY environment variable or use --anthropic-key"

/-- The specific console message printed when the OpenAI key is missing,
lines 312-315 (without console markup). -/
def openai_err : String :=
  "Error: OpenAI API key is required. Set OPENAI_API_KEY environment variable or use --openai-key"

/-- Outcome of the start of create_image, lines 304-320: either the
validation fails, a specific message is printed and the process exits
with a code before run_generation (and hence before any client use or
network call), or control reaches run_generation. -/
inductive CliStart where
  | earlyExit (msg : String) (code : Nat)
  | generationStarted
deriving DecidableEq

/-- Credential validation of create_image, lines 304-320: a falsy
Anthropic key exits with its message and code 1, then a falsy OpenAI key
exits with its message and code 1, otherwise run_generation is entered.
Keys are the typer option values: None when neither the flag nor the
environment variable supplies them. -/
def create_image_start (aKey oKey : Option String) : CliStart :=
  if !(isTruthy aKey) then .earlyExit anthropic_err 1
  else if !(isTruthy oKey) then .earlyExit openai_err 1
  else .generationStarted

/-- The console warning of lines 152-155 (without console markup). -/
def warn_msg (e : String) : String :=
  "Warning: Failed to generate image: " ++ e

/-- The saved path images_dir / (filename + ".png") of line 146. -/
def savedPath (dir fn : String) : String := dir ++ "/" ++ fn ++ ".png"

/-- One observable step of FlexibleImageGenerator.generate_image: the
image-generation service call, the HTTP download, the image decode, the
directory creation, the file save, and a console warning. -/
inductive FetchStep where
  | serviceCall
  | httpGet
  | decodeImage
  | mkdir
  | saveFile
  | warn (m : String)
deriving DecidableEq

/-- Warning steps emitted by the except branch of lines 151-156: one
console warning when verbose is set, none otherwise. -/
def warnSteps (verbose : Bool) (e : String) : List FetchStep :=
  if verbose then [.warn (warn_msg e)] else []

/-- FlexibleImageGenerator.generate_image, lines 130-156, with the five
fallible effects passed as oracles: sc is the image-generation service
call returning the image URL, hg the HTTP GET of that URL returning the
raw bytes, dec the image decode, mk the directory creation, sv the file
save. Returns the Python outcome (the saved path, or the re-raised
error) together with the trace of performed steps. -/
def generate_image (sc : Except String String)
    (hg : String → Except String String)
    (dec : String → Except String String)
    (mk : Except String Unit)
    (sv : String → String → Except String Unit)
    (verbose : Bool) (dir fn : String) :
    Except String String × List FetchStep :=
  match sc with
  | .error e => (.error e, [.serviceCall] ++ warnSteps verbose e)
  | .ok url =>
    match hg url with
    | .error e => (.error e, [.serviceCall, .httpGet] ++ warnSteps verbose e)
    | .ok bytes =>
      match dec bytes with
      | .error e =>
        (.error e, [.serviceCall, .httpGet, .decodeImage] ++ warnSteps verbose e)
      | .ok img =>
        match mk with
        | .error e =>
          (.error e,
           [.serviceCall, .httpGet, .decodeImage, .mkdir] ++ warnSteps verbose e)
        | .ok _ =>
          match sv img (savedPath dir fn) with
          | .error e =>
            (.error e,
             [.serviceCall, .httpGet, .decodeImage, .mkdir, .saveFile]
               ++ warnSteps verbose e)
          | .ok _ =>
            (.ok (savedPath dir fn),
             [.serviceCall, .httpGet, .decodeImage, .mkdir, .saveFile])

/-- The error of the first failing step of generate_image, when one
fails: the linear try block stops at the first raising statement. -/
def firstFailure (sc : Except String String)
    (hg : String → Except String String)
    (dec : String → Except String String)
    (mk : Except String Unit)
    (sv : String → String → Except String Unit)
    (dir fn : String) : Option String :=
  match sc with
  | .error e => some e
  | .ok url =>
    match hg url with
    | .error e => some e
    | .ok bytes =>
      match dec bytes with
      | .error e => some e
      | .ok img =>
        match mk with
        | .error e => some e
        | .ok _ =>
          match sv img (savedPath dir fn) with
          | .error e => some e
          | .ok _ => none

/-- Absence of two adjacent [-\s] characters, the shape the collapsing
substitution enforces. -/
def noAdjSep : List Char → Bool
  | [] => true
  | a :: rest =>
    (match rest.head? with
     | none => true
     | some b => !(isSep a && isSep b)) && noAdjSep rest

/-- Well-formedness of a sanitized output checked as one Boolean: every
character is a lowercase word character or a hyphen and is not
whitespace, and neither end is a hyphen. -/
def sanitizedOutputOk (l : List Char) : Bool :=
  l.all (fun c => ((isWordChar c && !isUpperC c) || c == '-') && !isSpaceChar c)
  && !(l.head? == some '-') && !(l.getLast? == some '-')

/-- The directive phrase of each style: the StyleDirective mapping of the
dictionary of lines 99-105 written as a total function over the closed
enum, exhibiting exactly one directive per value. -/
def directiveText : ImageStyle → String
  | .photorealistic =>
    "Create a photorealistic image with high detail and natural lighting"
  | .cartoon =>
    "Create a cartoon-style illustration with bold colors and clean lines"
  | .artistic =>
    "Create an artistic interpretation with creative expression and artistic flair"
  | .minimalist =>
    "Create a minimalist design with clean, simple elements and plenty of negative space"
  | .pixel_art =>
    "Create a pixel art style image with distinct pixels and limited color palette"

lemma hyphen_toNat_iff (c : Char) : c = '-' ↔ c.toNat = 45 := by
  constructor
  · intro h; subst h; decide
  · intro h
    have h2 := Char.ofNat_toNat c
    rw [h] at h2
    have h3 : Char.ofNat 45 = '-' := by decide
    rw [h3] at h2
    exact h2.symm

lemma isWordChar_not_isSep {c : Char} (h : isWordChar c = true) :
    isSep c = false := by
  simp only [isWordChar, Bool.or_eq_true, decide_eq_true_eq, isDigitC,
    isUpperC, isLowerC] at h
  simp only [isSep, isSpaceChar, Bool.or_eq_false_iff, decide_eq_false_iff_not,
    beq_eq_false_iff_ne, ne_eq, hyphen_toNat_iff]
  omega

lemma isWordChar_not_space {c : Char} (h : isWordChar c = true) :
    isSpaceChar c = false := by
  simp only [isWordChar, Bool.or_eq_true, decide_eq_true_eq, isDigitC,
    isUpperC, isLowerC] at h
  simp only [isSpaceChar, decide_eq_false_iff_not]
  omega

lemma isWordChar_ne_hyphen {c : Char} (h : isWordChar c = true) : c ≠ '-' := by
  intro hc
  have := isWordChar_not_isSep h
  rw [hc] at this
  simp [isSep] at this

lemma pyLower_toNat_of_upper {c : Char} (h : isUpperC c = true) :
    (pyLower c).toNat = c.toNat + 32 := by
  simp only [pyLower, h, if_true]
  simp only [isUpperC, decide_eq_true_eq] at h
  obtain ⟨h1, h2⟩ := h
  generalize hn : c.toNat = n at h1 h2
  interval_cases n <;> decide

lemma pyLower_of_not_upper {c : Char} (h : isUpperC c = false) :
    pyLower c = c := by
  simp [pyLower, h]

lemma isWordChar_pyLower {c : Char} (h : isWordChar c = true) :
    isWordChar (pyLower c) = true := by
  by_cases hu : isUpperC c = true
  · have ht := pyLower_toNat_of_upper hu
    simp only [isUpperC, decide_eq_true_eq] at hu
    simp only [isWordChar, isDigitC, isUpperC, isLowerC, Bool.or_eq_true,
      decide_eq_true_eq, ht]
    omega
  · rw [pyLower_of_not_upper (Bool.eq_false_iff.mpr hu)]
    exact h

lemma isUpperC_pyLower (c : Char) : isUpperC (pyLower c) = false := by
  by_cases hu : isUpperC c = true
  · have ht := pyLower_toNat_of_upper hu
    simp only [isUpperC, decide_eq_true_eq] at hu
    simp only [isUpperC, decide_eq_false_iff_not, ht]
    omega
  · rw [pyLower_of_not_upper (Bool.eq_false_iff.mpr hu)]
    exact Bool.eq_false_iff.mpr hu

lemma isSep_pyLower (c : Char) : isSep (pyLower c) = isSep c := by
  by_cases hu : isUpperC c = true
  · have ht := pyLower_toNat_of_upper hu
    have hu2 := hu
    simp only [isUpperC, decide_eq_true_eq] at hu2
    have h1 : isSep (pyLower c) = false := by
      simp only [isSep, isSpaceChar, Bool.or_eq_false_iff,
        decide_eq_false_iff_not, beq_eq_false_iff_ne, ne_eq, hyphen_toNat_iff, ht]
      omega
    have h2 : isSep c = false := by
      simp only [isSep, isSpaceChar, Bool.or_eq_false_iff,
        decide_eq_false_iff_not, beq_eq_false_iff_ne, ne_eq, hyphen_toNat_iff]
      omega
    rw [h1, h2]
  · rw [pyLower_of_not_upper (Bool.eq_false_iff.mpr hu)]

lemma pyLower_hyphen : pyLower '-' = '-' := by decide

lemma mem_collapseAux {c : Char} :
    ∀ (l : List Char) (b : Bool), c ∈ collapseAux b l →
      c = '-' ∨ (c ∈ l ∧ isSep c = false) := by
  intro l
  induction l with
  | nil => intro b h; simp [collapseAux] at h
  | cons a rest ih =>
    intro b h
    by_cases hs : isSep a = true
    · cases b with
      | true =>
        simp only [collapseAux, hs, if_true] at h
        rcases ih true h with h1 | ⟨h2, h3⟩
        · exact Or.inl h1
        · exact Or.inr ⟨List.mem_cons_of_mem a h2, h3⟩
      | false =>
        simp only [collapseAux, hs, if_true] at h
        rcases List.mem_cons.mp h with h1 | h1
        · exact Or.inl h1
        · rcases ih true h1 with h2 | ⟨h2, h3⟩
          · exact Or.inl h2
          · exact Or.inr ⟨List.mem_cons_of_mem a h2, h3⟩
    · have hs2 : isSep a = false := Bool.eq_false_iff.mpr hs
      simp only [collapseAux, hs2, Bool.false_eq_true, if_false] at h
      rcases List.mem_cons.mp h with h1 | h1
      · subst h1; exact Or.inr ⟨List.mem_cons_self c rest, hs2⟩
      · rcases ih false h1 with h2 | ⟨h2, h3⟩
        · exact Or.inl h2
        · exact Or.inr ⟨List.mem_cons_of_mem a h2, h3⟩

lemma mem_collapseAux_of_mem {c : Char} :
    ∀ (l : List Char) (b : Bool), c ∈ l → isSep c = false →
      c ∈ collapseAux b l := by
  intro l
  induction l with
  | nil => intro b h _; simp at h
  | cons a rest ih =>
    intro b h hc
    by_cases hs : isSep a = true
    · have hne : c ≠ a := by
        intro he; rw [he, hs] at hc; exact Bool.noConfusion hc
      have hmem : c ∈ rest := by
        rcases List.mem_cons.mp h with h1 | h1
        · exact absurd h1 hne
        · exact h1
      cases b with
      | true =>
        simp only [collapseAux, hs, if_true]
        exact ih true hmem hc
      | false =>
        simp only [collapseAux, hs, if_true]
        exact List.mem_cons_of_mem _ (ih true hmem hc)
    · have hs2 : isSep a = false := Bool.eq_false_iff.mpr hs
      simp only [collapseAux, hs2, Bool.false_eq_true, if_false]
      rcases List.mem_cons.mp h with h1 | h1
      · subst h1; exact List.mem_cons_self c _
      · exact List.mem_cons_of_mem _ (ih false h1 hc)

lemma head_collapseAux_true {c : Char} :
    ∀ (l : List Char), (collapseAux true l).head? = some c →
      isSep c = false := by
  intro l
  induction l with
  | nil => intro h; simp [collapseAux] at h
  | cons a rest ih =>
    intro h
    by_cases hs : isSep a = true
    · simp only [collapseAux, hs, if_true] at h
      exact ih h
    · have hs2 : isSep a = false := Bool.eq_false_iff.mpr hs
      simp only [collapseAux, hs2, Bool.false_eq_true, if_false,
        List.head?_cons, Option.some.injEq] at h
      rw [← h]
      exact hs2

lemma noAdjSep_cons (a : Char) (l : List Char) :
    noAdjSep (a :: l) =
      ((match l.head? with
        | none => true
        | some b => !(isSep a && isSep b)) && noAdjSep l) := rfl

lemma noAdjSep_collapseAux : ∀ (l : List Char) (b : Bool),
    noAdjSep (collapseAux b l) = true := by
  intro l
  induction l with
  | nil => intro b; simp [collapseAux, noAdjSep]
  | cons a rest ih =>
    intro b
    by_cases hs : isSep a = true
    · cases b with
      | true => simp only [collapseAux, hs, if_true]; exact ih true
      | false =>
        simp only [collapseAux, hs, if_true, Bool.false_eq_true, if_false]
        rw [noAdjSep_cons]
        simp only [Bool.and_eq_true]
        refine ⟨?_, ih true⟩
        cases hh : (collapseAux true rest).head? with
        | none => simp
        | some d =>
          have := head_collapseAux_true rest hh
          simp [this]
    · have hs2 : isSep a = false := Bool.eq_false_iff.mpr hs
      simp only [collapseAux, hs2, Bool.false_eq_true, if_false]
      rw [noAdjSep_cons]
      simp only [Bool.and_eq_true]
      refine ⟨?_, ih false⟩
      cases hh : (collapseAux false rest).head? with
      | none => simp
      | some d => simp [hs2]

lemma noAdjSep_tail {a : Char} {l : List Char}
    (h : noAdjSep (a :: l) = true) : noAdjSep l = true := by
  rw [noAdjSep_cons] at h
  simp only [Bool.and_eq_true] at h
  exact h.2

lemma noAdjSep_pair {a b : Char} {l : List Char}
    (h : noAdjSep (a :: l) = true) (hb : l.head? = some b)
    (ha : isSep a = true) : isSep b = false := by
  rw [noAdjSep_cons, hb] at h
  simp only [Bool.and_eq_true] at h
  have h1 := h.1
  rw [ha] at h1
  simpa using h1

lemma collapseAux_eq_self :
    ∀ (l : List Char) (b : Bool),
      (∀ c ∈ l, isSep c = false ∨ c = '-') →
      noAdjSep l = true →
      (b = true → ∀ c, l.head? = some c → isSep c = false) →
      collapseAux b l = l := by
  intro l
  induction l with
  | nil => intro b _ _ _; rfl
  | cons a rest ih =>
    intro b hall hadj hhead
    by_cases hs : isSep a = true
    · have hb : b = false := by
        cases b with
        | false => rfl
        | true =>
          have h0 := hhead rfl a (by simp)
          rw [hs] at h0
          exact Bool.noConfusion h0
      subst hb
      have ha : a = '-' := by
        rcases hall a (List.mem_cons_self a rest) with h1 | h1
        · rw [hs] at h1; exact Bool.noConfusion h1
        · exact h1
      simp only [collapseAux, hs, if_true, Bool.false_eq_true, if_false]
      rw [ha]
      congr 1
      exact ih true (fun c hc => hall c (List.mem_cons_of_mem a hc))
        (noAdjSep_tail hadj)
        (fun _ c hc => noAdjSep_pair hadj hc hs)
    · have hs2 : isSep a = false := Bool.eq_false_iff.mpr hs
      simp only [collapseAux, hs2, Bool.false_eq_true, if_false]
      congr 1
      exact ih false (fun c hc => hall c (List.mem_cons_of_mem a hc))
        (noAdjSep_tail hadj) (fun h => Bool.noConfusion h)

lemma mem_dropTrail {c : Char} :
    ∀ l : List Char, c ∈ dropTrail l → c ∈ l := by
  intro l
  induction l with
  | nil => intro h; simp [dropTrail] at h
  | cons a rest ih =>
    intro h
    simp only [dropTrail] at h
    by_cases hc : ((dropTrail rest).isEmpty && a == '-') = true
    · rw [if_pos hc] at h; simp at h
    · rw [if_neg hc] at h
      rcases List.mem_cons.mp h with h1 | h1
      · subst h1; exact List.mem_cons_self c rest
      · exact List.mem_cons_of_mem a (ih h1)

lemma mem_dropTrail_of_ne {c : Char} :
    ∀ l : List Char, c ∈ l → c ≠ '-' → c ∈ dropTrail l := by
  intro l
  induction l with
  | nil => intro h _; simp at h
  | cons a rest ih =>
    intro h hne
    simp only [dropTrail]
    by_cases hc : ((dropTrail rest).isEmpty && a == '-') = true
    · exfalso
      simp only [Bool.and_eq_true, List.isEmpty_iff, beq_iff_eq] at hc
      rcases List.mem_cons.mp h with h1 | h1
      · exact hne (h1.trans hc.2)
      · have := ih h1 hne
        rw [hc.1] at this
        simp at this
    · rw [if_neg hc]
      rcases List.mem_cons.mp h with h1 | h1
      · subst h1; exact List.mem_cons_self c _
      · exact List.mem_cons_of_mem a (ih h1 hne)

lemma head?_dropTrail {c : Char} :
    ∀ l : List Char, (dropTrail l).head? = some c → l.head? = some c := by
  intro l
  cases l with
  | nil => intro h; simp [dropTrail] at h
  | cons a rest =>
    intro h
    simp only [dropTrail] at h
    by_cases hc : ((dropTrail rest).isEmpty && a == '-') = true
    · rw [if_pos hc] at h; simp at h
    · rw [if_neg hc] at h
      simp only [List.head?_cons, Option.some.injEq] at h ⊢
      exact h

lemma noAdjSep_dropTrail :
    ∀ l : List Char, noAdjSep l = true → noAdjSep (dropTrail l) = true := by
  intro l
  induction l with
  | nil => intro h; exact h
  | cons a rest ih =>
    intro h
    simp only [dropTrail]
    by_cases hc : ((dropTrail rest).isEmpty && a == '-') = true
    · rw [if_pos hc]; rfl
    · rw [if_neg hc]
      rw [noAdjSep_cons]
      simp only [Bool.and_eq_true]
      refine ⟨?_, ih (noAdjSep_tail h)⟩
      cases hh : (dropTrail rest).head? with
      | none => simp
      | some d =>
        have hd := head?_dropTrail rest hh
        rw [noAdjSep_cons, hd] at h
        simp only [Bool.and_eq_true] at h
        exact h.1

lemma getLast?_dropTrail_ne :
    ∀ l : List Char, (dropTrail l).getLast? ≠ some '-' := by
  intro l
  induction l with
  | nil => simp [dropTrail]
  | cons a rest ih =>
    simp only [dropTrail]
    by_cases hc : ((dropTrail rest).isEmpty && a == '-') = true
    · rw [if_pos hc]; simp
    · rw [if_neg hc]
      cases he : dropTrail rest with
      | nil =>
        simp only [List.getLast?_singleton, ne_eq, Option.some.injEq]
        intro ha
        rw [he, ha] at hc
        simp at hc
      | cons d r =>
        rw [List.getLast?_cons_cons]
        rw [he] at ih
        exact ih

lemma dropTrail_eq_self :
    ∀ l : List Char, l.getLast? ≠ some '-' → dropTrail l = l := by
  intro l
  induction l with
  | nil => intro _; rfl
  | cons a rest ih =>
    intro h
    simp only [dropTrail]
    cases hr : rest with
    | nil =>
      have ha : ¬(a == '-') = true := by
        subst hr
        simp only [List.getLast?_singleton, ne_eq, Option.some.injEq] at h
        simp [h]
      rw [if_neg (by simp [dropTrail, ha])]
      simp [dropTrail]
    | cons b r =>
      have hrest : dropTrail rest = rest := by
        apply ih
        rw [hr] at h ⊢
        rw [List.getLast?_cons_cons] at h
        exact h
      rw [hr] at hrest
      rw [hrest]
      rw [if_neg (by simp)]

lemma head?_dropWhileHyphen {c : Char} :
    ∀ l : List Char,
      (l.dropWhile (fun c => c == '-')).head? = some c → c ≠ '-' := by
  intro l
  induction l with
  | nil => intro h; simp at h
  | cons a rest ih =>
    intro h
    rw [List.dropWhile_cons] at h
    by_cases ha : (a == '-') = true
    · rw [if_pos ha] at h
      exact ih h
    · rw [if_neg ha] at h
      simp only [List.head?_cons, Option.some.injEq] at h
      subst h
      simpa using ha

lemma mem_dropWhileHyphen_of_ne {c : Char} :
    ∀ l : List Char, c ∈ l → c ≠ '-' →
      c ∈ l.dropWhile (fun c => c == '-') := by
  intro l
  induction l with
  | nil => intro h _; simp at h
  | cons a rest ih =>
    intro h hne
    rw [List.dropWhile_cons]
    by_cases ha : (a == '-') = true
    · rw [if_pos ha]
      rcases List.mem_cons.mp h with h1 | h1
      · exact absurd (h1.trans (beq_iff_eq.mp ha)) hne
      · exact ih h1 hne
    · rw [if_neg ha]
      exact h

lemma noAdjSep_dropWhileHyphen :
    ∀ l : List Char, noAdjSep l = true →
      noAdjSep (l.dropWhile (fun c => c == '-')) = true := by
  intro l
  induction l with
  | nil => intro h; exact h
  | cons a rest ih =>
    intro h
    rw [List.dropWhile_cons]
    by_cases ha : (a == '-') = true
    · rw [if_pos ha]
      exact ih (noAdjSep_tail h)
    · rw [if_neg ha]
      exact h

lemma dropWhileHyphen_eq_self {l : List Char}
    (h : ∀ c, l.head? = some c → c ≠ '-') :
    l.dropWhile (fun c => c == '-') = l := by
  cases l with
  | nil => rfl
  | cons a rest =>
    have ha : ¬(a == '-') = true := by
      simpa using h a (by simp)
    rw [List.dropWhile_cons, if_neg ha]

lemma noAdjSep_map_pyLower :
    ∀ l : List Char, noAdjSep l = true →
      noAdjSep (l.map pyLower) = true := by
  intro l
  induction l with
  | nil => intro h; exact h
  | cons a rest ih =>
    intro h
    rw [List.map_cons, noAdjSep_cons]
    simp only [Bool.and_eq_true]
    refine ⟨?_, ih (noAdjSep_tail h)⟩
    rw [List.head?_map]
    cases hh : rest.head? with
    | none => simp
    | some d =>
      rw [noAdjSep_cons, hh] at h
      simp only [Bool.and_eq_true] at h
      have h1 := h.1
      show (!(isSep (pyLower a) && isSep (pyLower d))) = true
      rw [isSep_pyLower, isSep_pyLower]
      exact h1

lemma map_fix {f : Char → Char} :
    ∀ l : List Char, (∀ c ∈ l, f c = c) → l.map f = l := by
  intro l
  induction l with
  | nil => intro _; rfl
  | cons a rest ih =>
    intro h
    rw [List.map_cons, h a (List.mem_cons_self a rest),
      ih (fun c hc => h c (List.mem_cons_of_mem a hc))]

lemma keepChar_of_word {c : Char} (h : isWordChar c = true) :
    keepChar c = true := by
  simp [keepChar, h]

lemma keepChar_hyphen : keepChar '-' = true := by decide

lemma isWordChar_of_keep_not_sep {c : Char} (hk : keepChar c = true)
    (hs : isSep c = false) : isWordChar c = true := by
  simp only [keepChar, Bool.or_eq_true] at hk
  rcases hk with (hw | hsp) | hh
  · exact hw
  · exfalso
    simp only [isSep, Bool.or_eq_false_iff] at hs
    rw [hsp] at hs
    simpa using hs.1
  · exfalso
    simp only [isSep, Bool.or_eq_false_iff] at hs
    rw [hh] at hs
    simpa using hs.2

lemma sanitizeL_chars {l : List Char} :
    ∀ c ∈ sanitizeL l, (isWordChar c = true ∧ isUpperC c = false) ∨ c = '-' := by
  intro c hc
  unfold sanitizeL stripEdgeHyphens at hc
  have hc2 := mem_dropTrail _ hc
  have hc3 : c ∈ (collapseRuns (stripNonWord l)).map pyLower :=
    (List.dropWhile_sublist _).subset hc2
  obtain ⟨d, hd, hdc⟩ := List.mem_map.mp hc3
  rcases mem_collapseAux _ false hd with h1 | ⟨h1, h2⟩
  · subst h1
    rw [← hdc, pyLower_hyphen]
    exact Or.inr rfl
  · have hk : keepChar d = true := (List.mem_filter.mp h1).2
    have hw : isWordChar d = true := isWordChar_of_keep_not_sep hk h2
    subst hdc
    exact Or.inl ⟨isWordChar_pyLower hw, isUpperC_pyLower d⟩

lemma sanitizeL_noAdjSep (l : List Char) : noAdjSep (sanitizeL l) = true := by
  unfold sanitizeL stripEdgeHyphens
  exact noAdjSep_dropTrail _ (noAdjSep_dropWhileHyphen _
    (noAdjSep_map_pyLower _ (noAdjSep_collapseAux _ false)))

lemma sanitizeL_head {l : List Char} :
    ∀ c, (sanitizeL l).head? = some c → c ≠ '-' := by
  intro c hc
  unfold sanitizeL stripEdgeHyphens at hc
  exact head?_dropWhileHyphen _ (head?_dropTrail _ hc)

lemma sanitizeL_last (l : List Char) : (sanitizeL l).getLast? ≠ some '-' := by
  unfold sanitizeL stripEdgeHyphens
  exact getLast?_dropTrail_ne _

lemma sanitizeL_idem (l : List Char) : sanitizeL (sanitizeL l) = sanitizeL l := by
  have hchars := sanitizeL_chars (l := l)
  have h1 : stripNonWord (sanitizeL l) = sanitizeL l := by
    unfold stripNonWord
    rw [List.filter_eq_self]
    intro c hc
    rcases hchars c hc with ⟨hw, _⟩ | hh
    · exact keepChar_of_word hw
    · rw [hh]; exact keepChar_hyphen
  have h2 : collapseRuns (sanitizeL l) = sanitizeL l := by
    unfold collapseRuns
    apply collapseAux_eq_self
    · intro c hc
      rcases hchars c hc with ⟨hw, _⟩ | hh
      · exact Or.inl (isWordChar_not_isSep hw)
      · exact Or.inr hh
    · exact sanitizeL_noAdjSep l
    · intro h; exact Bool.noConfusion h
  have h3 : (sanitizeL l).map pyLower = sanitizeL l := by
    apply map_fix
    intro c hc
    rcases hchars c hc with ⟨_, hu⟩ | hh
    · exact pyLower_of_not_upper hu
    · rw [hh]; exact pyLower_hyphen
  have h4 : stripEdgeHyphens (sanitizeL l) = sanitizeL l := by
    unfold stripEdgeHyphens
    rw [dropWhileHyphen_eq_self (fun c hc => sanitizeL_head c hc)]
    exact dropTrail_eq_self _ (sanitizeL_last l)
  show stripEdgeHyphens ((collapseRuns (stripNonWord (sanitizeL l))).map pyLower)
      = sanitizeL l
  rw [h1, h2, h3, h4]

lemma pyLower_mem_sanitizeL {c : Char} {l : List Char}
    (hc : c ∈ l) (hw : isWordChar c = true) : pyLower c ∈ sanitizeL l := by
  have h1 : c ∈ stripNonWord l :=
    List.mem_filter.mpr ⟨hc, keepChar_of_word hw⟩
  have h2 : c ∈ collapseRuns (stripNonWord l) :=
    mem_collapseAux_of_mem _ false h1 (isWordChar_not_isSep hw)
  have h3 : pyLower c ∈ (collapseRuns (stripNonWord l)).map pyLower :=
    List.mem_map_of_mem pyLower h2
  have hne : pyLower c ≠ '-' := isWordChar_ne_hyphen (isWordChar_pyLower hw)
  unfold sanitizeL stripEdgeHyphens
  exact mem_dropTrail_of_ne _ (mem_dropWhileHyphen_of_ne _ h3 hne) hne

lemma sanitizeL_ne_nil {c : Char} {l : List Char}
    (hc : c ∈ l) (hw : isWordChar c = true) : sanitizeL l ≠ [] :=
  List.ne_nil_of_mem (pyLower_mem_sanitizeL hc hw)

lemma isDigitC_digitChar {n : Nat} (h : n ≤ 9) :
    isDigitC (digitChar n) = true := by
  interval_cases n <;> decide

lemma matchesTimestamp_strftime {y mo d h mi s : Nat}
    (hy1 : 1000 ≤ y) (hy2 : y ≤ 9999) (hmo1 : 1 ≤ mo) (hmo2 : mo ≤ 12)
    (hd1 : 1 ≤ d) (hd2 : d ≤ 31) (hh : h ≤ 23) (hmi : mi ≤ 59)
    (hs : s ≤ 59) :
    matchesTimestamp (strftimeTimestamp y mo d h mi s).data = true := by
  have e1 : isDigitC (digitChar (y / 1000)) = true :=
    isDigitC_digitChar (by omega)
  have e2 : isDigitC (digitChar (y / 100 % 10)) = true :=
    isDigitC_digitChar (by omega)
  have e3 : isDigitC (digitChar (y / 10 % 10)) = true :=
    isDigitC_digitChar (by omega)
  have e4 : isDigitC (digitChar (y % 10)) = true :=
    isDigitC_digitChar (by omega)
  have e5 : isDigitC (digitChar (mo / 10)) = true :=
    isDigitC_digitChar (by omega)
  have e6 : isDigitC (digitChar (mo % 10)) = true :=
    isDigitC_digitChar (by omega)
  have e7 : isDigitC (digitChar (d / 10)) = true :=
    isDigitC_digitChar (by omega)
  have e8 : isDigitC (digitChar (d % 10)) = true :=
    isDigitC_digitChar (by omega)
  have e9 : isDigitC (digitChar (h / 10)) = true :=
    isDigitC_digitChar (by omega)
  have e10 : isDigitC (digitChar (h % 10)) = true :=
    isDigitC_digitChar (by omega)
  have e11 : isDigitC (digitChar (mi / 10)) = true :=
    isDigitC_digitChar (by omega)
  have e12 : isDigitC (digitChar (mi % 10)) = true :=
    isDigitC_digitChar (by omega)
  have e13 : isDigitC (digitChar (s / 10)) = true :=
    isDigitC_digitChar (by omega)
  have e14 : isDigitC (digitChar (s % 10)) = true :=
    isDigitC_digitChar (by omega)
  simp [strftimeTimestamp, pad4, pad2, matchesTimestamp,
    e1, e2, e3, e4, e5, e6, e7, e8, e9, e10, e11, e12, e13, e14]

lemma sanitize_filename_idem_str (s : String) :
    sanitize_filename (sanitize_filename s) = sanitize_filename s := by
  unfold sanitize_filename
  exact congrArg String.mk (sanitizeL_idem s.data)

lemma sanitize_filename_empty_iff (s : String) :
    sanitize_filename s = "" ↔ sanitizeL s.data = [] := by
  rw [String.ext_iff]
  exact Iff.rfl

lemma pipeline_truthy {f : String} (hf : f ≠ "") (ts desc : String) :
    pipeline_filename ts (some f) desc = sanitize_filename f := by
  have hb : (f == "") = false := by simpa using hf
  unfold pipeline_filename run_generation_filename init_filename isTruthy
  simp [hb]

lemma pipeline_falsy_empty {fn : Option String} {desc : String}
    (hfn : isTruthy fn = false)
    (hemp : sanitize_filename ⟨desc.data.take 30⟩ = "") (ts : String) :
    pipeline_filename ts fn desc = ts := by
  unfold pipeline_filename run_generation_filename
  rw [hfn]
  simp only [Bool.false_eq_true, if_false]
  unfold init_filename
  rw [hemp]
  simp

lemma pipeline_falsy_nonempty {fn : Option String} {desc : String}
    (hfn : isTruthy fn = false)
    (hne : sanitize_filename ⟨desc.data.take 30⟩ ≠ "") (ts : String) :
    pipeline_filename ts fn desc = sanitize_filename ⟨desc.data.take 30⟩ := by
  have hb : (sanitize_filename ⟨desc.data.take 30⟩ == "") = false := by
    simpa using hne
  unfold pipeline_filename run_generation_filename
  rw [hfn]
  simp only [Bool.false_eq_true, if_false]
  unfold init_filename
  simp [hb, sanitize_filename_idem_str]

lemma matchesTimestamp_ne_empty {ts : String}
    (h : matchesTimestamp ts.data = true) : ts ≠ "" := by
  intro he
  rw [he] at h
  exact absurd h (by decide)

/-- C1 counterexample: the claim says the final filename of an invocation
is never empty, but an invocation with the explicit filename "!!!" (truthy,
so neither the description fallback nor the timestamp fallback is taken,
and sanitization yields the empty string) produces the empty filename,
even with a well-formed timestamp available. -/
theorem C1_counterexample :
    matchesTimestamp ("20260101_120000" : String).data = true ∧
    pipeline_filename "20260101_120000" (some "!!!") "a cat" = "" := by
  decide

/-- C1 amended: the final filename of an invocation is non-empty provided
every supplied explicit non-empty filename sanitizes to a non-empty
string; an absent or empty filename argument falls back to the sanitized
description prefix and then to the timestamp, which is non-empty. -/
theorem C1_filename_nonempty (ts : String) (fn : Option String)
    (desc : String) (hts : matchesTimestamp ts.data = true)
    (hfn : ∀ f, fn = some f → f ≠ "" → sanitize_filename f ≠ "") :
    pipeline_filename ts fn desc ≠ "" := by
  have hts2 : ts ≠ "" := matchesTimestamp_ne_empty hts
  cases fn with
  | none =>
    by_cases he : sanitize_filename ⟨desc.data.take 30⟩ = ""
    · rw [pipeline_falsy_empty (by decide) he ts]
      exact hts2
    · rw [pipeline_falsy_nonempty (by decide) he ts]
      exact he
  | some f =>
    by_cases hf : f = ""
    · subst hf
      by_cases he : sanitize_filename ⟨desc.data.take 30⟩ = ""
      · rw [pipeline_falsy_empty (by decide) he ts]
        exact hts2
      · rw [pipeline_falsy_nonempty (by decide) he ts]
        exact he
    · rw [pipeline_truthy hf ts desc]
      exact hfn f rfl hf

/-- C1 witness: the amended theorem applied to a concrete invocation with
no filename and an empty description, which receives the timestamp. -/
theorem C1_filename_nonempty_witness :
    pipeline_filename "20260101_120000" none "" ≠ "" :=
  C1_filename_nonempty "20260101_120000" none "" (by decide)
    (fun f hf => Option.noConfusion hf)

/-- C2: for every input string, the output of sanitize_filename contains
only lowercase word characters and hyphens, contains no whitespace, and
neither starts nor ends with a hyphen. -/
theorem C2_sanitized_shape (s : String) :
    sanitizedOutputOk (sanitize_filename s).data = true := by
  have hchars := sanitizeL_chars (l := s.data)
  show sanitizedOutputOk (sanitizeL s.data) = true
  unfold sanitizedOutputOk
  simp only [Bool.and_eq_true]
  refine ⟨⟨?_, ?_⟩, ?_⟩
  · rw [List.all_eq_true]
    intro c hc
    rcases hchars c hc with ⟨hw, hu⟩ | hh
    · simp [hw, hu, isWordChar_not_space hw]
    · subst hh; decide
  · cases hh : (sanitizeL s.data).head? with
    | none => simp [hh]
    | some c =>
      have := sanitizeL_head c hh
      simp [hh, this]
  · have := sanitizeL_last s.data
    simp [this]

/-- C3: sanitize_filename is idempotent. -/
theorem C3_sanitize_idempotent (s : String) :
    sanitize_filename (sanitize_filename s) = sanitize_filename s :=
  sanitize_filename_idem_str s

/-- C4 counterexample: the claim says every input that is non-empty after
the stripping substitution sanitizes to a non-empty string, but the input
consisting of one hyphen survives the stripping substitution unchanged
and still sanitizes to the empty string. -/
theorem C4_counterexample :
    stripNonWord ("-" : String).data ≠ [] ∧ sanitize_filename "-" = "" := by
  decide

/-- C4 amended: every input containing at least one word character
sanitizes to a non-empty string, and the sample input of the claim
sanitizes as stated. -/
theorem C4_nonempty_amended :
    (∀ s : String, s.data.any isWordChar = true → sanitize_filename s ≠ "") ∧
    sanitize_filename "Hello, World! 2024" = "hello-world-2024" := by
  constructor
  · intro s hs hcontra
    obtain ⟨c, hc, hw⟩ := List.any_eq_true.mp hs
    exact sanitizeL_ne_nil hc hw ((sanitize_filename_empty_iff s).mp hcontra)
  · decide

/-- C4 witness: the amended theorem applied to a concrete input made of
word characters. -/
theorem C4_nonempty_amended_witness : sanitize_filename "abc" ≠ "" :=
  C4_nonempty_amended.1 "abc" (by decide)

/-- C5: when the filename argument is falsy and the sanitized 30-character
description prefix is empty, the final filename is the strftime timestamp
and matches the pattern YYYYMMDD_HHMMSS exactly, for every clock reading
a datetime value can take in a four-digit year. -/
theorem C5_timestamp_fallback (y mo d h mi s : Nat) (fn : Option String)
    (desc : String)
    (hy1 : 1000 ≤ y) (hy2 : y ≤ 9999) (hmo1 : 1 ≤ mo) (hmo2 : mo ≤ 12)
    (hd1 : 1 ≤ d) (hd2 : d ≤ 31) (hh : h ≤ 23) (hmi : mi ≤ 59) (hs : s ≤ 59)
    (hfn : isTruthy fn = false)
    (hdesc : sanitize_filename ⟨desc.data.take 30⟩ = "") :
    matchesTimestamp
      (pipeline_filename (strftimeTimestamp y mo d h mi s) fn desc).data
      = true := by
  rw [pipeline_falsy_empty hfn hdesc]
  exact matchesTimestamp_strftime hy1 hy2 hmo1 hmo2 hd1 hd2 hh hmi hs

/-- C5 witness: the theorem applied to a concrete clock reading, no
filename and a punctuation-only description. -/
theorem C5_timestamp_fallback_witness :
    matchesTimestamp
      (pipeline_filename (strftimeTimestamp 2026 10 12 9 30 5) none "!!!").data
      = true :=
  C5_timestamp_fallback 2026 10 12 9 30 5 none "!!!"
    (by decide) (by decide) (by decide) (by decide) (by decide) (by decide)
    (by decide) (by decide) (by decide) (by decide) (by decide)

/-- C6: the size dictionary lookup is total over the three enum values
and returns exactly the three stated dimension strings. -/
theorem C6_size_dimensions :
    (∀ s : ImageSize, (get_dimensions s).isSome = true) ∧
    get_dimensions ImageSize.square = some "1024x1024" ∧
    get_dimensions ImageSize.portrait = some "1024x1792" ∧
    get_dimensions ImageSize.landscape = some "1792x1024" := by
  refine ⟨?_, by decide, by decide, by decide⟩
  intro s
  cases s <;> decide

/-- C7: for every style, the dictionary holds exactly one entry for that
style, the lookup returns its directive, and the assembled prompt text
contains the directive phrase verbatim between the fixed parts of the
template, for every description and optional instructions. -/
theorem C7_style_directive (s : ImageStyle) (d : String) (a : Option String) :
    lookupStyle s = some (directiveText s) ∧
    (style_instructions.filter (fun p => p.1 == s)).length = 1 ∧
    build_prompt d s a =
      some (promptBefore d ++ directiveText s ++ promptAfter a) := by
  cases s <;> exact ⟨rfl, by decide, rfl⟩

/-- C8: a falsy Anthropic key resolves to the early exit with the
Anthropic-specific message and code 1, and a truthy Anthropic key with a
falsy OpenAI key resolves to the early exit with the OpenAI-specific
message and code 1; in the model the early exit precedes any client use
or network call, which happen only after generationStarted. -/
theorem C8_missing_credentials (a o : Option String) :
    (isTruthy a = false →
      create_image_start a o = CliStart.earlyExit anthropic_err 1) ∧
    (isTruthy a = true → isTruthy o = false →
      create_image_start a o = CliStart.earlyExit openai_err 1) := by
  constructor
  · intro h
    unfold create_image_start
    rw [h]
    simp
  · intro h1 h2
    unfold create_image_start
    rw [h1, h2]
    simp

/-- C8 witness: the theorem applied to a missing Anthropic key and to a
missing OpenAI key. -/
theorem C8_missing_credentials_witness :
    create_image_start none (some "k") = CliStart.earlyExit anthropic_err 1 ∧
    create_image_start (some "k") none = CliStart.earlyExit openai_err 1 :=
  ⟨(C8_missing_credentials none (some "k")).1 (by decide),
   (C8_missing_credentials (some "k") none).2 (by decide) (by decide)⟩

lemma trace_props (pre : List FetchStep)
    (hpre : pre.count FetchStep.serviceCall = 1)
    (hw : ∀ m, FetchStep.warn m ∉ pre) (v : Bool) (e : String) :
    ((pre ++ warnSteps v e).count FetchStep.serviceCall = 1) ∧
    (FetchStep.warn (warn_msg e) ∈ pre ++ warnSteps v e ↔ v = true) := by
  cases v with
  | true =>
    constructor
    · rw [List.count_append, hpre]
      simp [warnSteps, List.count_cons]
    · simp [warnSteps]
  | false =>
    constructor
    · simpa [warnSteps] using hpre
    · simp [warnSteps, hw (warn_msg e)]

/-- C9: whenever a step of the Image Fetcher fails, the returned outcome
is exactly the error of the failing step re-raised unchanged, the service call
was performed exactly once (no retry), the console warning appears in the
trace precisely when verbose is set, and no saved path is returned. -/
theorem C9_fetch_error_propagation
    (sc : Except String String) (hg : String → Except String String)
    (dec : String → Except String String) (mk : Except String Unit)
    (sv : String → String → Except String Unit) (v : Bool) (dir fn : String)
    (e : String)
    (hf : firstFailure sc hg dec mk sv dir fn = some e) :
    (generate_image sc hg dec mk sv v dir fn).1 = Except.error e ∧
    (generate_image sc hg dec mk sv v dir fn).2.count FetchStep.serviceCall
      = 1 ∧
    (FetchStep.warn (warn_msg e) ∈ (generate_image sc hg dec mk sv v dir fn).2
      ↔ v = true) ∧
    (∀ p, (generate_image sc hg dec mk sv v dir fn).1 ≠ Except.ok p) := by
  rcases sc with e0 | url
  · simp only [firstFailure, Option.some.injEq] at hf
    subst hf
    have ht := trace_props [FetchStep.serviceCall] (by decide)
      (by intro m; simp) v e0
    simp only [generate_image]
    exact ⟨by trivial, ht.1, ht.2, by simp⟩
  · cases hhg : hg url with
    | error e0 =>
      simp only [firstFailure, hhg, Option.some.injEq] at hf
      subst hf
      have ht := trace_props [FetchStep.serviceCall, FetchStep.httpGet]
        (by decide) (by intro m; simp) v e0
      simp only [generate_image, hhg]
      exact ⟨by trivial, ht.1, ht.2, by simp⟩
    | ok bytes =>
      cases hdec : dec bytes with
      | error e0 =>
        simp only [firstFailure, hhg, hdec, Option.some.injEq] at hf
        subst hf
        have ht := trace_props
          [FetchStep.serviceCall, FetchStep.httpGet, FetchStep.decodeImage]
          (by decide) (by intro m; simp) v e0
        simp only [generate_image, hhg, hdec]
        exact ⟨by trivial, ht.1, ht.2, by simp⟩
      | ok img =>
        cases hmk : mk with
        | error e0 =>
          simp only [firstFailure, hhg, hdec, hmk, Option.some.injEq] at hf
          subst hf
          have ht := trace_props
            [FetchStep.serviceCall, FetchStep.httpGet, FetchStep.decodeImage,
             FetchStep.mkdir] (by decide) (by intro m; simp) v e0
          simp only [generate_image, hhg, hdec]
          exact ⟨by trivial, ht.1, ht.2, by simp⟩
        | ok u =>
          cases hsv : sv img (savedPath dir fn) with
          | error e0 =>
            simp only [firstFailure, hhg, hdec, hmk, hsv,
              Option.some.injEq] at hf
            subst hf
            have ht := trace_props
              [FetchStep.serviceCall, FetchStep.httpGet,
               FetchStep.decodeImage, FetchStep.mkdir, FetchStep.saveFile]
              (by decide) (by intro m; simp) v e0
            simp only [generate_image, hhg, hdec, hsv]
            exact ⟨by trivial, ht.1, ht.2, by simp⟩
          | ok u2 =>
            simp only [firstFailure, hhg, hdec, hmk, hsv] at hf
            exact Option.noConfusion hf

/-- C9 witness: the theorem applied to a failing service call in verbose
mode with concrete oracles for the remaining steps. -/
theorem C9_fetch_error_propagation_witness :
    (generate_image (Except.error "boom") (fun _ => Except.ok "b")
      (fun _ => Except.ok "i") (Except.ok ()) (fun _ _ => Except.ok ())
      true "./images" "x").1 = Except.error "boom" ∧
    (generate_image (Except.error "boom") (fun _ => Except.ok "b")
      (fun _ => Except.ok "i") (Except.ok ()) (fun _ _ => Except.ok ())
      true "./images" "x").2.count FetchStep.serviceCall = 1 ∧
    (FetchStep.warn (warn_msg "boom") ∈
      (generate_image (Except.error "boom") (fun _ => Except.ok "b")
        (fun _ => Except.ok "i") (Except.ok ()) (fun _ _ => Except.ok ())
        true "./images" "x").2 ↔ true = true) ∧
    (∀ p, (generate_image (Except.error "boom") (fun _ => Except.ok "b")
      (fun _ => Except.ok "i") (Except.ok ()) (fun _ _ => Except.ok ())
      true "./images" "x").1 ≠ Except.ok p) :=
  C9_fetch_error_propagation (Except.error "boom") (fun _ => Except.ok "b")
    (fun _ => Except.ok "i") (Except.ok ()) (fun _ _ => Except.ok ())
    true "./images" "x" "boom" rfl

lemma savedPath_empty (dir : String) : savedPath dir "" = dir ++ "/.png" := by
  unfold savedPath
  rw [String.append_empty, String.append_assoc]
  have h : ("/" ++ ".png" : String) = "/.png" := by decide
  rw [h]

/-- C10: an explicit non-empty filename whose sanitization is empty makes
the generator use the empty filename rather than the timestamp fallback,
a successful fetch with the empty filename saves to images_dir/.png, and
the timestamp is used exactly when the filename argument reaching the
constructor is absent or empty before sanitization. -/
theorem C10_empty_explicit_filename :
    (∀ ts f desc, f ≠ "" → sanitize_filename f = "" →
      pipeline_filename ts (some f) desc = "") ∧
    (∀ (hg : String → Except String String)
       (dec : String → Except String String)
       (sv : String → String → Except String Unit)
       (v : Bool) (dir url bytes img : String),
      hg url = Except.ok bytes → dec bytes = Except.ok img →
      sv img (savedPath dir "") = Except.ok () →
      (generate_image (Except.ok url) hg dec (Except.ok ()) sv v dir "").1
        = Except.ok (dir ++ "/.png")) ∧
    (∀ ts fn, isTruthy fn = false → init_filename ts fn = ts) ∧
    (∀ ts f, f ≠ "" → init_filename ts (some f) = sanitize_filename f) := by
  refine ⟨?_, ?_, ?_, ?_⟩
  · intro ts f desc hf hsan
    rw [pipeline_truthy hf ts desc]
    exact hsan
  · intro hg dec sv v dir url bytes img h1 h2 h3
    simp only [generate_image, h1, h2, h3]
    rw [savedPath_empty]
  · intro ts fn h
    cases fn with
    | none => rfl
    | some f =>
      simp only [isTruthy, Bool.not_eq_false] at h
      simp [init_filename, h]
  · intro ts f hf
    have hb : (f == "") = false := by simpa using hf
    simp [init_filename, hb]

/-- C10 witness: the theorem applied to the explicit filename "!!!", to a
fully successful concrete fetch with the empty filename, and to the two
branches of the constructor resolution. -/
theorem C10_empty_explicit_filename_witness :
    pipeline_filename "20260101_120000" (some "!!!") "a cat" = "" ∧
    (generate_image (Except.ok "u") (fun _ => Except.ok "b")
      (fun _ => Except.ok "i") (Except.ok ()) (fun _ _ => Except.ok ())
      true "./images" "").1 = Except.ok ("./images" ++ "/.png") ∧
    init_filename "20260101_120000" none = "20260101_120000" ∧
    init_filename "20260101_120000" (some "a cat") = sanitize_filename "a cat" :=
  ⟨C10_empty_explicit_filename.1 "20260101_120000" "!!!" "a cat"
      (by decide) (by decide),
   C10_empty_explicit_filename.2.1 (fun _ => Except.ok "b")
      (fun _ => Except.ok "i") (fun _ _ => Except.ok ()) true "./images"
      "u" "b" "i" rfl rfl rfl,
   C10_empty_explicit_filename.2.2.1 "20260101_120000" none (by decide),
   C10_empty_explicit_filename.2.2.2 "20260101_120000" "a cat" (by decide)⟩

end ImageGen
